import Mathlib

/-!
Shallow embedding of the AutoPIM loop pass (src/autopim.cpp) and proofs about it.

Modelling conventions:
* LLVM `Value*` objects are modelled by the inductive `Value`; pointer identity is
  modelled by a natural-number id carried by every node (`Value.vid`).  A null
  `Value*` is modelled by `none` at `Option` type.
* Compile-time integer constants (`ConstantInt`) are `Value.const`; every other
  constant kind is out of scope for the loops this pass looks at.
* Basic blocks are lists of instructions (`List Value`), a loop body is the list of
  its blocks in `block_begin()..block_end()` order.
* Oracles the pass consumes (canonical induction variable discovery) are fields of
  the `Loop` structure, by identity (`Option Nat`).
* Code that the C++ can only leave by crashing (a failed `cast<>`, a dereference of
  a null pointer) is modelled by `Option`/an explicit `crash` constructor: `none`
  (resp. `.crash`) means the process aborts there, it is not a recoverable value.
-/

namespace AutoPIM

/-- Binary-instruction opcodes relevant to the pass.  The twelve opcodes named in
the `switch` of `extractComputation` are listed individually; `srem` stands for a
binary opcode outside that set (it falls into every `default:` arm). -/
inductive BinOp where
  | add | sub | sdiv | udiv | mul | band | bor | bxor | lshr | ashr | shl | icmp
  | srem
deriving DecidableEq, Repr

/-- IR values / instructions, by defining form.  `other` covers every defining form
the pass does not inspect structurally: arguments, calls, phi-less opaque values. -/
inductive Value where
  | const (id : Nat) (n : Int)
  | binop (id : Nat) (op : BinOp) (lhs rhs : Value)
  | conv (id : Nat) (signed : Bool) (src : Value)
  | load (id : Nat) (addr : Value)
  | gep (id : Nat) (base : Value) (indices : List Value)
  | store (id : Nat) (val : Value) (addr : Value)
  | phi (id : Nat) (incoming : List Value)
  | other (id : Nat)

/-- The identity of a value: stands for its `Value*` pointer. -/
def Value.vid : Value → Nat
  | .const i _ => i
  | .binop i _ _ _ => i
  | .conv i _ _ => i
  | .load i _ => i
  | .gep i _ _ => i
  | .store i _ _ => i
  | .phi i _ => i
  | .other i => i

/-- `AccessPattern` (autopim.cpp:26): two `Value*` fields, held by identity;
`none` models the null pointer of the default constructor. -/
structure AccessPattern where
  first_idx : Option Nat
  second_idx : Option Nat
deriving DecidableEq, Repr

/-- `getIndexVariable` (autopim.cpp:153): the last operand of a `getelementptr`.
A GEP's operand list is its base pointer followed by the indices, so the last
operand is the last index when one exists, and the base pointer otherwise. -/
def getIndexVariable (base : Value) (indices : List Value) : Value :=
  (indices.getLast?).getD base

/-- A loop as the analyses see it: the canonical-induction-variable oracle
(`getCanonicalInductionVariable`, by value identity, `none` = NULL) and the
instruction lists of its blocks. -/
structure Loop where
  canonicalIV : Option Nat
  blocks : List (List Value)

/-- Result of running the extractor: the C++ either returns an `ExtractAST*`
(possibly null = no tree) or dereferences a null `GetElementPtrInst*` and
crashes. -/
inductive ExtractAST where
  | constant
  | array
  | opNode (op : BinOp) (left : Option ExtractAST) (right : Option ExtractAST)

inductive ExtractRes where
  | crash
  | ok (t : Option ExtractAST)

/-- The opcodes of the first `switch` group of `extractComputation`
(autopim.cpp:169-180). -/
def allowedBinOp : BinOp → Bool
  | .add => true
  | .sub => true
  | .sdiv => true
  | .udiv => true
  | .mul => true
  | .band => true
  | .bor => true
  | .bxor => true
  | .lshr => true
  | .ashr => true
  | .shl => true
  | .icmp => true
  | .srem => false

/-- `extractComputation` (autopim.cpp:158-204).
* a `Constant` gives a `CONSTANT` leaf;
* an allowed binary opcode gives an `OP` node whose children are the (unchecked!)
  results of extracting both operands;
* `zext`/`sext` recurse transparently into the single operand;
* a load whose address is a GEP gives an `ARRAY` leaf when the GEP's trailing
  operand is `pattern.first_idx` or `pattern.second_idx`, and falls through to
  `default: return nullptr` otherwise;
* a load whose address is not a GEP reaches `getIndexVariable(nullptr)` — a null
  dereference, modelled as `.crash`;
* every other defining form returns `nullptr` (`.ok none`). -/
def extractComputation (pattern : AccessPattern) : Value → ExtractRes
  | .const _ _ => .ok (some .constant)
  | .binop _ op a b =>
      if allowedBinOp op then
        match extractComputation pattern a with
        | .crash => .crash
        | .ok l =>
            match extractComputation pattern b with
            | .crash => .crash
            | .ok r => .ok (some (.opNode op l r))
      else .ok none
  | .conv _ _ src => extractComputation pattern src
  | .load _ addr =>
      match addr with
      | .gep _ base indices =>
          let ix := (getIndexVariable base indices).vid
          if some ix == pattern.first_idx || some ix == pattern.second_idx then
            .ok (some .array)
          else .ok none
      | _ => .crash
  | .gep _ _ _ => .ok none
  | .store _ _ _ => .ok none
  | .phi _ _ => .ok none
  | .other _ => .ok none

/-- `CostModel` (autopim.cpp:66-77): the per-operator area weights, overridable
fields with the synthesized defaults. -/
structure CostModel where
  cost_add : Nat := 1187
  cost_sub : Nat := 1187
  cost_mul : Nat := 16066
  cost_div : Nat := 61252
  cost_shift : Nat := 0
  cost_and : Nat := 50
  cost_or : Nat := 50
  cost_xor : Nat := 99
  cost_load : Nat := 0
  cost_cmp : Nat := 173
  cost_constant : Nat := 0
deriving DecidableEq, Repr

/-- The non-null case of `CostModel::computeCost` (autopim.cpp:85-140): a null
child contributes 0 (the `if (ast->left != NULL)` / `if (ast->right != NULL)`
guards leave `cost_op0` / `cost_op1` at their 0 initializers). -/
def CostModel.computeCostAST (cm : CostModel) : ExtractAST → Nat
  | .constant => cm.cost_constant
  | .array => cm.cost_load
  | .opNode op l r =>
      let cost_op0 := match l with | none => 0 | some t => cm.computeCostAST t
      let cost_op1 := match r with | none => 0 | some t => cm.computeCostAST t
      match op with
      | .add => cost_op0 + cost_op1 + cm.cost_add
      | .sub => cost_op0 + cost_op1 + cm.cost_sub
      | .sdiv => cost_op0 + cost_op1 + cm.cost_div
      | .udiv => cost_op0 + cost_op1 + cm.cost_div
      | .mul => cost_op0 + cost_op1 + cm.cost_mul
      | .band => cost_op0 + cost_op1 + cm.cost_and
      | .bor => cost_op0 + cost_op1 + cm.cost_or
      | .bxor => cost_op0 + cost_op1 + cm.cost_xor
      | .lshr => cost_op0 + cost_op1 + cm.cost_shift
      | .ashr => cost_op0 + cost_op1 + cm.cost_shift
      | .shl => cost_op0 + cost_op1 + cm.cost_shift
      | .icmp => cost_op0 + cost_op1 + cm.cost_cmp
      | .srem => cost_op0 + cost_op1 + 0

/-- `CostModel::computeCost` (autopim.cpp:79-143) on the possibly null
`ExtractAST*` argument; a null pointer costs 0 (the trailing `return 0`). -/
def CostModel.computeCost (cm : CostModel) : Option ExtractAST → Nat
  | none => 0
  | some t => cm.computeCostAST t

/-- The default-constructed cost model (`CostModel cm;` at autopim.cpp:477). -/
def defaultCostModel : CostModel := {}

/-- The per-instruction scan of `isLoopIterationIndependent` (autopim.cpp:301-323),
over one block's instruction list.  `iv` is the (non-null) canonical induction
variable's identity, `first_idx` is `pattern.first_idx`.
* a GEP instruction whose trailing operand is neither — immediate `false`;
* a store whose address operand is not a GEP — immediate `false`;
* everything else is skipped. -/
def indepScanInstrs (iv : Nat) (first_idx : Option Nat) : List Value → Bool
  | [] => true
  | v :: rest =>
      match v with
      | .gep _ base indices =>
          if (getIndexVariable base indices).vid == iv
              || some (getIndexVariable base indices).vid == first_idx then
            indepScanInstrs iv first_idx rest
          else false
      | .store _ _ addr =>
          match addr with
          | .gep _ _ _ => indepScanInstrs iv first_idx rest
          | _ => false
      | _ => indepScanInstrs iv first_idx rest

/-- The per-block loop of `isLoopIterationIndependent` (autopim.cpp:295-324): the
canonical-induction-variable oracle is consulted at each block iteration (so a
loop with no blocks is vacuously independent even without an induction
variable, exactly as in the source). -/
def indepScanBlocks (ivOpt : Option Nat) (first_idx : Option Nat) :
    List (List Value) → Bool
  | [] => true
  | b :: rest =>
      match ivOpt with
      | none => false
      | some iv =>
          if indepScanInstrs iv first_idx b then indepScanBlocks ivOpt first_idx rest
          else false

/-- `isLoopIterationIndependent` (autopim.cpp:290-327). -/
def isLoopIterationIndependent (sub_loop : Loop) (pattern : AccessPattern) : Bool :=
  indepScanBlocks sub_loop.canonicalIV pattern.first_idx sub_loop.blocks

/-- The store search of `subLoopIsVectorLoop` (autopim.cpp:336-367): the first
store instruction in block-scan order decides the verdict (all branches of the
store case return).  Yields the stored value and the stored-to address. -/
def findFirstStoreInstrs : List Value → Option (Value × Value)
  | [] => none
  | v :: rest =>
      match v with
      | .store _ sv addr => some (sv, addr)
      | _ => findFirstStoreInstrs rest

def findFirstStore : List (List Value) → Option (Value × Value)
  | [] => none
  | b :: rest =>
      match findFirstStoreInstrs b with
      | some r => some r
      | none => findFirstStore rest

/-- Result of `subLoopIsVectorLoop`: the returned bool, the (by-reference)
`pattern` as it stands after the call, and the value written through
`store_value` (written whenever a store was found, also on `false` paths). -/
structure VectorLoopResult where
  verdict : Bool
  pattern : AccessPattern
  store_value : Option Value

/-- `subLoopIsVectorLoop` (autopim.cpp:329-370).
* no canonical induction variable — `false`, nothing written;
* otherwise the first store instruction found (if any) is examined:
  `*store_value` is set to its stored value, `pattern.second_idx` is set to the
  canonical induction variable, and the verdict is `isLoopIterationIndependent`
  when the store address is a GEP whose trailing operand is the induction
  variable, `false` otherwise;
* no store at all — `false`, nothing written.
The extractability of the stored value is NOT examined (the extraction call at
autopim.cpp:348-351 is commented out). -/
def subLoopIsVectorLoop (sub_loop : Loop) (pattern : AccessPattern) :
    VectorLoopResult :=
  match sub_loop.canonicalIV with
  | none => ⟨false, pattern, none⟩
  | some iv =>
      match findFirstStore sub_loop.blocks with
      | none => ⟨false, pattern, none⟩
      | some (sv, addr) =>
          let pattern2 : AccessPattern :=
            { pattern with second_idx := sub_loop.canonicalIV }
          match addr with
          | .gep _ base indices =>
              if (getIndexVariable base indices).vid == iv then
                ⟨isLoopIterationIndependent sub_loop pattern2, pattern2, some sv⟩
              else ⟨false, pattern2, some sv⟩
          | _ => ⟨false, pattern2, some sv⟩

/-- The `do_interchange` accumulation of `isLoopInterchangeValid`
(autopim.cpp:388-401): every store whose address is a GEP must key off
`pattern.first_idx`; the flag is cleared (never restored) on a mismatch, and
stores through non-GEP addresses are ignored here. -/
def interchangeScanInstr (first_idx : Option Nat) (di : Bool) (v : Value) : Bool :=
  match v with
  | .store _ _ addr =>
      match addr with
      | .gep _ base indices =>
          if some (getIndexVariable base indices).vid == first_idx then di else false
      | _ => di
  | _ => di

/-- `isLoopInterchangeValid` (autopim.cpp:380-404).  The first `loop` parameter is
unused in the source as well. -/
def isLoopInterchangeValid (loop sub_loop : Loop) (pattern : AccessPattern) : Bool :=
  if !isLoopIterationIndependent sub_loop pattern then false
  else
    sub_loop.blocks.foldl (fun di b => b.foldl (interchangeScanInstr pattern.first_idx) di) true

/-- `doLoopInterchange` (autopim.cpp:413-419): swaps `pattern.first_idx` and
`pattern.second_idx` in place and sets the pass-level `loop_was_interchanged`
flag (the second component).  Note that no caller of this function exists in the
source. -/
def doLoopInterchange (pattern : AccessPattern) : AccessPattern × Bool :=
  (⟨pattern.second_idx, pattern.first_idx⟩, true)

/-- `LoopRange` (autopim.cpp:33-38): two `unsigned int` fields. -/
structure LoopRange where
  start : Nat
  stop : Nat
deriving DecidableEq, Repr

/-- C++ conversion of a (signed, 64-bit `getSExtValue`) integer to `unsigned int`. -/
def toUInt32Nat (n : Int) : Nat := (n % (4294967296 : Int)).toNat

/-- Scan state of `getLoopRange` (autopim.cpp:424-431): the `start`/`end` value
pointers and the `first_phi`/`first_icmp` flags. -/
structure RangeScanState where
  start : Option Value
  stop : Option Value
  first_phi : Bool
  first_icmp : Bool

/-- One instruction step of the `getLoopRange` scan (autopim.cpp:433-444): the
first phi's incoming value 0 becomes `start`, the first icmp's operand 1 becomes
`stop`.  (`getIncomingValue(0)` of a phi with no incoming values would assert in
the source; the `none` it leaves here likewise ends in the aborting arm below.) -/
def rangeScanStep (st : RangeScanState) (v : Value) : RangeScanState :=
  match v with
  | .phi _ incoming =>
      if st.first_phi then
        { st with start := incoming.head?, first_phi := false }
      else st
  | .binop _ .icmp _ b =>
      if st.first_icmp then
        { st with stop := some b, first_icmp := false }
      else st
  | _ => st

/-- The state after the full scan loop of `getLoopRange` (autopim.cpp:433-444). -/
def rangeScanFinal (loop : Loop) : RangeScanState :=
  loop.blocks.foldl (fun s b => b.foldl rangeScanStep s)
    (⟨none, none, true, true⟩ : RangeScanState)

/-- `getLoopRange` (autopim.cpp:421-447).  The final
`cast<ConstantInt>(start)` / `cast<ConstantInt>(end)` succeeds only when the
scanned value is a compile-time integer constant; on anything else (including a
null pointer when no phi or no icmp was found) the cast fails and the process
aborts — modelled as `none`.  There is no recoverable failure return. -/
def getLoopRange (loop : Loop) : Option LoopRange :=
  match (rangeScanFinal loop).start, (rangeScanFinal loop).stop with
  | some (.const _ s), some (.const _ e) => some ⟨toUInt32Nat s, toUInt32Nat e⟩
  | _, _ => none

/-- `CompiledSubLoop` (autopim.cpp:40-47), with the in-class initializers and the
zero/empty values a default-constructed record holds. -/
structure CompiledSubLoop where
  sub_loop_index : Nat := 0
  compiled_expr : String := ""
  range : LoopRange := ⟨0, 0⟩
  interchanged : Bool := false
  compiled : Bool := false
  cost : Nat := 0
deriving DecidableEq, Repr

instance : Inhabited CompiledSubLoop := ⟨{}⟩

/-- The global `std::map<unsigned int, CompiledSubLoop> sub_loops`
(autopim.cpp:49), modelled by its observable behaviour: `operator[]` reads of a
missing key yield a default-constructed record, assignments overwrite. -/
def Registry := Nat → CompiledSubLoop

def regGet (r : Registry) (k : Nat) : CompiledSubLoop := r k

def regSet (r : Registry) (k : Nat) (v : CompiledSubLoop) : Registry :=
  fun k2 => if k2 = k then v else r k2

/-- A freshly constructed (empty) registry: every read default-constructs. -/
def regEmpty : Registry := fun _ => {}

/-- The `compiled_expr` string built at autopim.cpp:471-472. -/
def pimRunIndexExpr (sub_loop_num : Nat) : String :=
  "pim_runindex(sub_loop_fn" ++ toString sub_loop_num ++ ", index);"

/-- The record `compileSubLoop` (autopim.cpp:449-492) stores for one sub-loop,
together with the pattern as it stands after the call (`pattern` is passed by
reference and mutated by `subLoopIsVectorLoop`).  `none` models the two process
aborts reachable here: a failed constant cast inside `getLoopRange`, or the
null-GEP dereference inside `extractComputation`.
The interchange-legality check at autopim.cpp:453 only selects a report message:
`doLoopInterchange` is never invoked, no index swap happens, and the record's
`interchanged` field keeps its `false` initializer on every path. -/
def compileSubLoopEntry (sub_loop : Loop) (sub_loop_num : Nat)
    (pattern : AccessPattern) : Option (CompiledSubLoop × AccessPattern) :=
  match subLoopIsVectorLoop sub_loop pattern with
  | ⟨true, p2, some v⟩ =>
      match getLoopRange sub_loop with
      | none => none
      | some range =>
          match extractComputation p2 v with
          | .crash => none
          | .ok ast =>
              some ({ sub_loop_index := sub_loop_num
                      compiled := true
                      range := range
                      cost := defaultCostModel.computeCost ast
                      compiled_expr := pimRunIndexExpr sub_loop_num
                      interchanged := false }, p2)
  | ⟨true, _, none⟩ =>
      -- unreachable: a `true` verdict always comes with a recorded store value
      -- (the C++ would read the uninitialized local `value` here)
      none
  | ⟨false, p2, _⟩ => some ({ compiled := false }, p2)

/-- `compileSubLoop` including its registry write (`sub_loops[sub_loop_num] = csl`
in both branches, autopim.cpp:484 and 489). -/
def compileSubLoop (sub_loop : Loop) (sub_loop_num : Nat) (pattern : AccessPattern)
    (reg : Registry) : Option (Registry × AccessPattern) :=
  match compileSubLoopEntry sub_loop sub_loop_num pattern with
  | none => none
  | some (csl, p2) => some (regSet reg sub_loop_num csl, p2)

/-- The sub-loop scan of `runOnLoop` (autopim.cpp:670-672): each sub-loop gets the
next dense ordinal and `compileSubLoop` runs with the shared mutable pattern.
The second component is the trace of patterns at each `compileSubLoop` entry
(recorded also for a call that ends in a process abort). -/
def processSubLoops : List Loop → Nat → AccessPattern → Registry →
    Option (Registry × AccessPattern) × List AccessPattern
  | [], _, pattern, reg => (some (reg, pattern), [])
  | l :: rest, n, pattern, reg =>
      match compileSubLoopEntry l n pattern with
      | none => (none, [pattern])
      | some (csl, p2) =>
          let res := processSubLoops rest (n + 1) p2 (regSet reg n csl)
          (res.1, pattern :: res.2)

/-- An outermost loop as `runOnLoop` sees it: its depth, its canonical-induction-
variable oracle, and its immediate sub-loops. -/
structure OuterLoop where
  depth : Nat
  canonicalIV : Option Nat
  subs : List Loop

/-- The analysis phase of `runOnLoop` (autopim.cpp:616-672) restricted to the
sub-loop branch.  For a depth-1 loop, `pattern.first_idx` is set to the outer
loop's canonical induction variable — with NO null check (autopim.cpp:627) — and
every sub-loop is scanned.  Loops of other depths, and the no-sub-loop branch
(which processes the outer loop itself and never touches the registry), leave
the registry alone and run no sub-loop check.  Returns the registry after the
visit (`none` = process abort) and the trace of patterns at each sub-loop check. -/
def runOnLoopSubPhase (loop : OuterLoop) (reg : Registry) :
    Option Registry × List AccessPattern :=
  if loop.depth = 1 ∧ loop.subs.length ≠ 0 then
    let res := processSubLoops loop.subs 0 ⟨loop.canonicalIV, none⟩ reg
    (res.1.map Prod.fst, res.2)
  else (some reg, [])

/-- The sub-loop registry after a complete `runOnLoop` visit.  The rewrite phase
(autopim.cpp:676-687) and the init-call pass (`insertLoopPIMCalls`,
autopim.cpp:585-591) only read `sub_loops[idx]` for `idx` below the number of
sub-loops scanned; neither writes the map, so the global registry after the
visit is exactly the scan result. -/
def visitRegistry (loop : OuterLoop) (reg : Registry) : Option Registry :=
  (runOnLoopSubPhase loop reg).1

/-- The two accelerator calls the pass emits. -/
inductive PimCall where
  | runindex (subloop_num : Int) (outer_iv : Option Nat)
  | initsubloop (subloop_num range_start range_end : Int)
deriving DecidableEq, Repr

/-- The pieces of the module the call inserters touch: which functions are
declared in the program, and the calls inserted so far (each at the first
non-phi position of the relevant header; only their existence and arguments
matter to the claims). -/
structure ModuleIR where
  declared : List String
  calls : List PimCall
deriving DecidableEq, Repr

/-- `insertSubLoopPIMCall` (autopim.cpp:538-556).  When `pim_runindex` is not
declared, the source prints "[Error] Could not load subloop PIM runtime
function." and then — with no early return — calls
`runindex_fn->getContext()` on the null pointer: a crash, modelled as `none`. -/
def insertSubLoopPIMCall (m : ModuleIR) (sub_loop_num : Int) (outer_iv : Option Nat) :
    Option ModuleIR :=
  if "pim_runindex" ∈ m.declared then
    some { m with calls := m.calls ++ [PimCall.runindex sub_loop_num outer_iv] }
  else none

/-- `insertPIMInitCall` (autopim.cpp:559-581).  When `pim_initsubloop` is not
declared, the source prints "[Error] Could not load loop PIM runtime function."
and then — with no early return — calls `init_fn->getType()` on the null
pointer: a crash, modelled as `none`. -/
def insertPIMInitCall (m : ModuleIR) (subloop_num range_start range_end : Int) :
    Option ModuleIR :=
  if "pim_initsubloop" ∈ m.declared then
    some { m with calls := m.calls ++ [PimCall.initsubloop subloop_num range_start range_end] }
  else none

/-- The loop body of `insertLoopPIMCalls` (autopim.cpp:585-591) over the index
list `[0, ..., max-1]`: for every registry entry with `compiled == true`, insert
the init call with that entry's resolved range. -/
def insertLoopPIMCallsGo (reg : Registry) : List Nat → ModuleIR → Option ModuleIR
  | [], m => some m
  | i :: rest, m =>
      if (regGet reg i).compiled then
        match insertPIMInitCall m (Int.ofNat i) (Int.ofNat (regGet reg i).range.start)
            (Int.ofNat (regGet reg i).range.stop) with
        | none => none
        | some m2 => insertLoopPIMCallsGo reg rest m2
      else insertLoopPIMCallsGo reg rest m

/-- `insertLoopPIMCalls` (autopim.cpp:585-591). -/
def insertLoopPIMCalls (m : ModuleIR) (reg : Registry) (sub_loop_num_max : Nat) :
    Option ModuleIR :=
  insertLoopPIMCallsGo reg (List.range sub_loop_num_max) m

/-- Instructions of the control-flow model used by `eraseSubLoop`: the loop
header's instruction list contains at most one terminator; a conditional branch
carries its two successor block ids. -/
inductive HInstr where
  | br (succ0 succ1 : Nat)
  | plain (v : Value)

/-- The control-flow view of a (sub)loop that `eraseSubLoop` edits: the header's
instructions, the `getExitBlock()` oracle (`none` when the loop has no unique
exit block), and the remaining blocks of the loop, which the function never
touches. -/
structure LoopCFG where
  header : List HInstr
  exitBlock : Option Nat
  body : List (List HInstr)

/-- The per-instruction edit of `eraseSubLoop` (autopim.cpp:606-612): every
branch instruction of the header gets both successors redirected to the exit
block; every other instruction is left alone. -/
def redirectBranch (exit : Nat) : HInstr → HInstr
  | .br _ _ => .br exit exit
  | .plain v => .plain v

/-- `eraseSubLoop` (autopim.cpp:597-613): with no exit block the error is
reported and the function returns with no edit; otherwise the header's branches
are redirected.  No instruction is deleted anywhere. -/
def eraseSubLoop (l : LoopCFG) : LoopCFG :=
  match l.exitBlock with
  | none => l
  | some exit => { l with header := l.header.map (redirectBranch exit) }

/-! ### Spec-side definitions

`costSpecFold` below is written from the specification's words (section 4.2 and
the claim's weight list), NOT from the source, so that the source-derived
`CostModel.computeCost` can be compared against it. -/

/-- Whether a value is a `getelementptr` computation. -/
def isGepValue : Value → Bool
  | .gep _ _ _ => true
  | _ => false

/-- A tree is well-formed when every `Operator` node has both children present
(spec section 3, ExpressionTree invariant). -/
def wellFormedAST : ExtractAST → Bool
  | .constant => true
  | .array => true
  | .opNode _ (some l) (some r) => wellFormedAST l && wellFormedAST r
  | .opNode _ _ _ => false

/-- The weight table exactly as the claim lists it: add/sub 1187, mul 16066,
signed/unsigned div 61252, bitwise and/or 50, xor 99, shifts 0, compare 173, an
unknown operator adds 0. -/
def specWeight : BinOp → Nat
  | .add => 1187
  | .sub => 1187
  | .mul => 16066
  | .sdiv => 61252
  | .udiv => 61252
  | .band => 50
  | .bor => 50
  | .bxor => 99
  | .lshr => 0
  | .ashr => 0
  | .shl => 0
  | .icmp => 173
  | .srem => 0

/-- The bottom-up fold the claim describes: Constant and ArrayLoad leaves cost 0,
an Operator node costs the sum of both children's costs plus its weight (an
absent child, which a well-formed tree does not have, contributes nothing). -/
def costSpecFold : ExtractAST → Nat
  | .constant => 0
  | .array => 0
  | .opNode op l r =>
      (match l with | none => 0 | some t => costSpecFold t)
        + (match r with | none => 0 | some t => costSpecFold t) + specWeight op

/-! ### Concrete IR fragments used by counterexamples and witnesses -/

/-- The canonical induction variable of the concrete inner loops below: a phi
starting at the constant 0. -/
def phiX : Value := .phi 1 [.const 2 0, .other 3]

/-- The exit test `iv < 32` with a constant bound. -/
def icmpX : Value := .binop 4 .icmp (.other 3) (.const 5 32)

/-- The exit test with a non-constant (argument) bound. -/
def icmpY : Value := .binop 4 .icmp (.other 3) (.other 12)

/-- An array address indexed by the loop's own induction variable. -/
def gepX : Value := .gep 6 (.other 7) [phiX]

/-- A stored value defined by an opcode outside the extractor's allowed set. -/
def sremX : Value := .binop 8 .srem (.const 9 1) (.const 10 2)

/-- A store of the unextractable value into `A[iv]`. -/
def storeX : Value := .store 11 sremX gepX

/-- A vector-shaped loop (accepted by the detector) whose stored value is not
AST-extractable. -/
def loopX : Loop := ⟨some 1, [[phiX, icmpX, sremX, gepX, storeX]]⟩

/-- The access pattern of an outer loop whose induction variable has identity 99. -/
def patX : AccessPattern := ⟨some 99, none⟩

/-- The registry record `compileSubLoop` produces for `loopX`. -/
def cslX : CompiledSubLoop :=
  ⟨0, "pim_runindex(sub_loop_fn0, index);", ⟨0, 32⟩, false, true, 0⟩

/-- A vector-shaped loop whose exit bound is not a compile-time constant. -/
def loopY : Loop := ⟨some 1, [[phiX, icmpY, gepX, .store 11 (.const 13 5) gepX]]⟩

/-- A value whose right operand is defined by a disallowed opcode. -/
def valC2 : Value := .binop 20 .add (.const 21 7) sremX

/-- The partial tree the extractor actually returns for `valC2`. -/
def astC2 : ExtractAST := .opNode .add (some .constant) none

def patC2 : AccessPattern := ⟨some 5, some 10⟩

/-- A sub-loop with no discoverable canonical induction variable. -/
def subTrivial : Loop := ⟨none, []⟩

/-- A depth-1 outer loop with no discoverable canonical induction variable and
one sub-loop. -/
def outerC6 : OuterLoop := ⟨1, none, [subTrivial]⟩

/-- An inner loop whose only store is keyed by the outer index (`pattern.first_idx`),
making the interchange-legality check succeed. -/
def gepI : Value := .gep 20 (.other 30) [.other 5]

def loopI : Loop := ⟨some 10, [[gepI, .store 21 (.const 22 1) gepI]]⟩

def patI : AccessPattern := ⟨some 5, none⟩

/-- A depth-1 outer loop whose single sub-loop is `loopX`. -/
def outerC8 : OuterLoop := ⟨1, some 99, [loopX]⟩

/-- A loop containing a store through a raw (non-GEP) pointer. -/
def loopRaw : Loop := ⟨some 1, [[.store 2 (.const 3 0) (.other 4)]]⟩

/-- A module in which neither accelerator entry point is declared. -/
def moduleNone : ModuleIR := ⟨[], []⟩

/-- A module in which both accelerator entry points are declared. -/
def moduleBoth : ModuleIR := ⟨["pim_runindex", "pim_initsubloop"], []⟩

/-- The add-of-two-loads tree from the claim's end-to-end scenario. -/
def astAddLoads : ExtractAST := .opNode .add (some .array) (some .array)

/-- The compare-against-constant tree from the claim's end-to-end scenario. -/
def astCmpConst : ExtractAST := .opNode .icmp (some .array) (some .constant)

/-- A loop CFG with a conditional header branch and an exit block. -/
def cfgW : LoopCFG := ⟨[.plain (.other 1), .br 2 3], some 9, [[.br 2 3]]⟩

/-! ### Helper lemmas -/

/-- A store through a non-GEP address makes the instruction scan of the
independence analysis fail, wherever it sits in the block. -/
theorem indepScanInstrs_raw_store (iv : Nat) (fi : Option Nat) :
    ∀ (instrs : List Value) (i : Nat) (sv addr : Value),
      Value.store i sv addr ∈ instrs → isGepValue addr = false →
      indepScanInstrs iv fi instrs = false := by
  intro instrs
  induction instrs with
  | nil => intro i sv addr h _; cases h
  | cons v rest ih =>
      intro i sv addr h haddr
      rcases List.mem_cons.mp h with hv | hrest
      · subst hv
        cases addr with
        | gep _ _ _ => simp [isGepValue] at haddr
        | const _ _ => rfl
        | binop _ _ _ _ => rfl
        | conv _ _ _ => rfl
        | load _ _ => rfl
        | store _ _ _ => rfl
        | phi _ _ => rfl
        | other _ => rfl
      · have hrec := ih i sv addr hrest haddr
        cases v with
        | gep j base indices =>
            show (if ((getIndexVariable base indices).vid == iv
                || some (getIndexVariable base indices).vid == fi) = true then
              indepScanInstrs iv fi rest else false) = false
            rw [hrec]
            simp
        | store j s a =>
            cases a with
            | gep _ _ _ => exact hrec
            | const _ _ => rfl
            | binop _ _ _ _ => rfl
            | conv _ _ _ => rfl
            | load _ _ => rfl
            | store _ _ _ => rfl
            | phi _ _ => rfl
            | other _ => rfl
        | const _ _ => exact hrec
        | binop _ _ _ _ => exact hrec
        | conv _ _ _ => exact hrec
        | load _ _ => exact hrec
        | phi _ _ => exact hrec
        | other _ => exact hrec

/-- A block on which the instruction scan fails (whatever the induction
variable) makes the block scan fail. -/
theorem indepScanBlocks_bad_block (fi : Option Nat) :
    ∀ (blocks : List (List Value)) (ivOpt : Option Nat) (b : List Value),
      b ∈ blocks →
      (∀ iv, indepScanInstrs iv fi b = false) →
      indepScanBlocks ivOpt fi blocks = false := by
  intro blocks
  induction blocks with
  | nil => intro ivOpt b h _; cases h
  | cons b0 rest ih =>
      intro ivOpt b h hbad
      rcases ivOpt with _ | iv
      · rfl
      · rcases List.mem_cons.mp h with hb | hrest
        · subst hb
          show (if indepScanInstrs iv fi b = true then
            indepScanBlocks (some iv) fi rest else false) = false
          rw [hbad iv]
          simp
        · show (if indepScanInstrs iv fi b0 = true then
            indepScanBlocks (some iv) fi rest else false) = false
          rw [ih (some iv) b hrest hbad]
          simp

/-- Shape facts about `subLoopIsVectorLoop`: it never writes
`pattern.first_idx`, and a `true` verdict always comes with a recorded stored
value. -/
theorem subLoopIsVectorLoop_shape (l : Loop) (p : AccessPattern) :
    (subLoopIsVectorLoop l p).pattern.first_idx = p.first_idx ∧
    ((subLoopIsVectorLoop l p).verdict = true →
      ∃ v, (subLoopIsVectorLoop l p).store_value = some v) := by
  unfold subLoopIsVectorLoop
  rcases l.canonicalIV with _ | iv
  · exact ⟨rfl, fun h => absurd h (by simp)⟩
  · rcases findFirstStore l.blocks with _ | ⟨sv, addr⟩
    · exact ⟨rfl, fun h => absurd h (by simp)⟩
    · cases addr with
      | gep j base indices =>
          dsimp only
          split
          · exact ⟨rfl, fun _ => ⟨sv, rfl⟩⟩
          · exact ⟨rfl, fun _ => ⟨sv, rfl⟩⟩
      | const _ _ => exact ⟨rfl, fun _ => ⟨sv, rfl⟩⟩
      | binop _ _ _ _ => exact ⟨rfl, fun _ => ⟨sv, rfl⟩⟩
      | conv _ _ _ => exact ⟨rfl, fun _ => ⟨sv, rfl⟩⟩
      | load _ _ => exact ⟨rfl, fun _ => ⟨sv, rfl⟩⟩
      | store _ _ _ => exact ⟨rfl, fun _ => ⟨sv, rfl⟩⟩
      | phi _ _ => exact ⟨rfl, fun _ => ⟨sv, rfl⟩⟩
      | other _ => exact ⟨rfl, fun _ => ⟨sv, rfl⟩⟩

/-- Inversion of a successful `compileSubLoopEntry` call: the returned pattern is
the one `subLoopIsVectorLoop` left behind, the record's `interchanged` flag is
false on every path, and a `compiled = true` record pins down the whole chain
(positive verdict, resolved range, non-crashing extraction whose — possibly
absent — tree priced the record). -/
theorem compileSubLoopEntry_inv (l : Loop) (n : Nat) (p : AccessPattern)
    (csl : CompiledSubLoop) (p2 : AccessPattern)
    (h : compileSubLoopEntry l n p = some (csl, p2)) :
    p2 = (subLoopIsVectorLoop l p).pattern ∧
    csl.interchanged = false ∧
    (csl.compiled = true →
      (subLoopIsVectorLoop l p).verdict = true ∧
      ∃ v ast, (subLoopIsVectorLoop l p).store_value = some v ∧
        extractComputation p2 v = ExtractRes.ok ast ∧
        csl.cost = defaultCostModel.computeCost ast ∧
        getLoopRange l = some csl.range) := by
  unfold compileSubLoopEntry at h
  rcases hE : subLoopIsVectorLoop l p with ⟨vd, pt, svo⟩
  rw [hE] at h
  rcases vd with _ | _
  · rcases svo with _ | v
    · dsimp only at h
      obtain ⟨h1, h2⟩ := Prod.mk.injEq .. ▸ Option.some.injEq .. ▸ h
      subst h1
      subst h2
      exact ⟨rfl, rfl, fun hc => absurd hc (by simp)⟩
    · dsimp only at h
      obtain ⟨h1, h2⟩ := Prod.mk.injEq .. ▸ Option.some.injEq .. ▸ h
      subst h1
      subst h2
      exact ⟨rfl, rfl, fun hc => absurd hc (by simp)⟩
  · rcases svo with _ | v
    · dsimp only at h
      cases h
    · dsimp only at h
      rcases hr : getLoopRange l with _ | range
      · rw [hr] at h; cases h
      · rw [hr] at h
        rcases he : extractComputation pt v with _ | ast
        · rw [he] at h; cases h
        · rw [he] at h
          obtain ⟨h1, h2⟩ := Prod.mk.injEq .. ▸ Option.some.injEq .. ▸ h
          subst h1
          subst h2
          exact ⟨rfl, rfl, fun _ => ⟨rfl, v, ast, rfl, he, rfl, rfl⟩⟩

/-- A successful `compileSubLoop` call leaves `pattern.first_idx` unchanged. -/
theorem compileSubLoopEntry_first_idx (l : Loop) (n : Nat) (p : AccessPattern)
    (csl : CompiledSubLoop) (p2 : AccessPattern)
    (h : compileSubLoopEntry l n p = some (csl, p2)) :
    p2.first_idx = p.first_idx := by
  obtain ⟨h1, _, _⟩ := compileSubLoopEntry_inv l n p csl p2 h
  rw [h1]
  exact (subLoopIsVectorLoop_shape l p).1

/-- Every pattern a sub-loop check is entered with carries the initial
`first_idx`. -/
theorem processSubLoops_trace_first_idx :
    ∀ (subs : List Loop) (n : Nat) (p : AccessPattern) (reg : Registry)
      (q : AccessPattern), q ∈ (processSubLoops subs n p reg).2 →
      q.first_idx = p.first_idx := by
  intro subs
  induction subs with
  | nil =>
      intro n p reg q hq
      simp only [processSubLoops] at hq
      cases hq
  | cons l rest ih =>
      intro n p reg q hq
      rcases he : compileSubLoopEntry l n p with _ | ⟨csl, p2⟩
      · simp only [processSubLoops, he] at hq
        rcases List.mem_singleton.mp hq with rfl
        rfl
      · simp only [processSubLoops, he] at hq
        rcases List.mem_cons.mp hq with rfl | hq2
        · rfl
        · rw [ih (n + 1) p2 (regSet reg n csl) q hq2]
          exact compileSubLoopEntry_first_idx l n p csl p2 he

/-- When the sub-loop scan completes without a process abort, every sub-loop was
checked (one trace entry per sub-loop). -/
theorem processSubLoops_trace_length :
    ∀ (subs : List Loop) (n : Nat) (p : AccessPattern) (reg : Registry),
      (processSubLoops subs n p reg).1.isSome = true →
      (processSubLoops subs n p reg).2.length = subs.length := by
  intro subs
  induction subs with
  | nil => intro n p reg _; rfl
  | cons l rest ih =>
      intro n p reg h
      rcases he : compileSubLoopEntry l n p with _ | ⟨csl, p2⟩
      · simp only [processSubLoops, he, Option.isSome] at h
        cases h
      · simp only [processSubLoops, he, List.length_cons] at h ⊢
        rw [ih (n + 1) p2 (regSet reg n csl) h]

/-- The sub-loop scan never writes a registry key below its starting ordinal. -/
theorem processSubLoops_lower :
    ∀ (subs : List Loop) (n : Nat) (p : AccessPattern) (reg rr : Registry)
      (pf : AccessPattern) (k : Nat),
      (processSubLoops subs n p reg).1 = some (rr, pf) → k < n → rr k = reg k := by
  intro subs
  induction subs with
  | nil =>
      intro n p reg rr pf k h hk
      simp only [processSubLoops] at h
      obtain ⟨h1, _⟩ := Prod.mk.injEq .. ▸ Option.some.injEq .. ▸ h
      rw [← h1]
  | cons l rest ih =>
      intro n p reg rr pf k h hk
      rcases he : compileSubLoopEntry l n p with _ | ⟨csl, p2⟩
      · simp only [processSubLoops, he] at h
        cases h
      · simp only [processSubLoops, he] at h
        rw [ih (n + 1) p2 (regSet reg n csl) rr pf k h (by omega)]
        unfold regSet
        rw [if_neg (by omega)]

/-- The sub-loop scan's observable outcome — trace, success, final pattern, and
every registry key it wrote — does not depend on the registry it starts from. -/
theorem processSubLoops_indep :
    ∀ (subs : List Loop) (n : Nat) (p : AccessPattern) (reg1 reg2 : Registry),
      (processSubLoops subs n p reg1).2 = (processSubLoops subs n p reg2).2 ∧
      (processSubLoops subs n p reg1).1.isSome
        = (processSubLoops subs n p reg2).1.isSome ∧
      (∀ rr1 p1 rr2 p2,
        (processSubLoops subs n p reg1).1 = some (rr1, p1) →
        (processSubLoops subs n p reg2).1 = some (rr2, p2) →
        p1 = p2 ∧ ∀ k, n ≤ k → k < n + subs.length → rr1 k = rr2 k) := by
  intro subs
  induction subs with
  | nil =>
      intro n p reg1 reg2
      refine ⟨rfl, rfl, ?_⟩
      intro rr1 p1 rr2 p2 h1 h2
      simp only [processSubLoops] at h1 h2
      obtain ⟨hr1, hp1⟩ := Prod.mk.injEq .. ▸ Option.some.injEq .. ▸ h1
      obtain ⟨hr2, hp2⟩ := Prod.mk.injEq .. ▸ Option.some.injEq .. ▸ h2
      subst hp1
      subst hp2
      exact ⟨rfl, fun k hk1 hk2 => by simp only [List.length_nil] at hk2; omega⟩
  | cons l rest ih =>
      intro n p reg1 reg2
      rcases he : compileSubLoopEntry l n p with _ | ⟨csl, p2⟩
      · refine ⟨?_, ?_, ?_⟩
        · simp only [processSubLoops, he]
        · simp only [processSubLoops, he]
        · intro rr1 q1 rr2 q2 h1 h2
          simp only [processSubLoops, he] at h1
          cases h1
      · obtain ⟨iht, ihs, ihk⟩ :=
          ih (n + 1) p2 (regSet reg1 n csl) (regSet reg2 n csl)
        refine ⟨?_, ?_, ?_⟩
        · simp only [processSubLoops, he, iht]
        · simp only [processSubLoops, he, ihs]
        · intro rr1 q1 rr2 q2 h1 h2
          simp only [processSubLoops, he] at h1 h2
          obtain ⟨hq, hkk⟩ := ihk rr1 q1 rr2 q2 h1 h2
          refine ⟨hq, ?_⟩
          intro k hk1 hk2
          rcases Nat.lt_or_ge k (n + 1) with hlt | hge
          · have hkn : k = n := by omega
            subst hkn
            rw [processSubLoops_lower rest (k + 1) p2 (regSet reg1 k csl) rr1 q1 k h1 (by omega)]
            rw [processSubLoops_lower rest (k + 1) p2 (regSet reg2 k csl) rr2 q2 k h2 (by omega)]
            unfold regSet
            rw [if_pos rfl, if_pos rfl]
          · exact hkk k hge (by simp only [List.length_cons] at hk2; omega)

/-- The init-call insertion pass depends only on the registry keys it reads. -/
theorem insertLoopPIMCallsGo_congr (reg1 reg2 : Registry) :
    ∀ (idxs : List Nat) (m : ModuleIR),
      (∀ i ∈ idxs, regGet reg1 i = regGet reg2 i) →
      insertLoopPIMCallsGo reg1 idxs m = insertLoopPIMCallsGo reg2 idxs m := by
  intro idxs
  induction idxs with
  | nil => intro m _; rfl
  | cons i rest ih =>
      intro m h
      have hi : regGet reg1 i = regGet reg2 i := h i (List.mem_cons_self i rest)
      have hrest : ∀ j ∈ rest, regGet reg1 j = regGet reg2 j :=
        fun j hj => h j (List.mem_cons_of_mem i hj)
      unfold insertLoopPIMCallsGo
      rw [hi]
      split
      · split
        · rfl
        · exact ih _ hrest
      · exact ih m hrest

/-- On well-formed trees the source cost recursion coincides with the
spec-described fold. -/
theorem computeCostAST_eq_spec :
    ∀ (t : ExtractAST), wellFormedAST t = true →
      defaultCostModel.computeCostAST t = costSpecFold t
  | .constant, _ => rfl
  | .array, _ => rfl
  | .opNode op (some l) (some r), h => by
      have hl : wellFormedAST l = true := by
        have hh := h
        simp only [wellFormedAST, Bool.and_eq_true] at hh
        exact hh.1
      have hr : wellFormedAST r = true := by
        have hh := h
        simp only [wellFormedAST, Bool.and_eq_true] at hh
        exact hh.2
      have ihl := computeCostAST_eq_spec l hl
      have ihr := computeCostAST_eq_spec r hr
      cases op <;>
        (simp only [CostModel.computeCostAST, costSpecFold, specWeight]
         rw [ihl, ihr]) <;> rfl
  | .opNode _ none _, h => by
      simp only [wellFormedAST] at h
      cases h
  | .opNode _ (some _) none, h => by
      simp only [wellFormedAST] at h
      cases h

/-! ### Claim C1 -/

/-- Claim C1, refuted at a concrete input: `loopX` is accepted by
`subLoopIsVectorLoop` (stored value recorded), yet extracting that stored value
under the resulting access pattern returns the failure sentinel (`.ok none`),
and the registry entry is nevertheless written with `compiled = true` (and cost
0, the cost of the absent tree). -/
theorem C1_counterexample :
    (subLoopIsVectorLoop loopX patX).verdict = true ∧
    (subLoopIsVectorLoop loopX patX).store_value = some sremX ∧
    extractComputation (subLoopIsVectorLoop loopX patX).pattern sremX
      = ExtractRes.ok none ∧
    compileSubLoopEntry loopX 0 patX = some (cslX, ⟨some 99, some 1⟩) ∧
    cslX.compiled = true ∧ cslX.cost = 0 :=
  ⟨rfl, rfl, rfl, rfl, rfl, rfl⟩

/-- Claim C1 (amended): a vector-loop verdict does not guarantee extractability —
`subLoopIsVectorLoop` checks only the store-address shape and iteration
independence.  What a `compiled = true` registry entry does guarantee: the
verdict was positive, the loop range resolved, and the extraction attempt did
not crash; its recorded cost is the cost of the extraction's possibly absent
result tree. -/
theorem C1_amended_compiled_entries (l : Loop) (n : Nat) (p : AccessPattern)
    (csl : CompiledSubLoop) (p2 : AccessPattern)
    (h : compileSubLoopEntry l n p = some (csl, p2)) (hc : csl.compiled = true) :
    (subLoopIsVectorLoop l p).verdict = true ∧
    ∃ v ast, (subLoopIsVectorLoop l p).store_value = some v ∧
      extractComputation p2 v = ExtractRes.ok ast ∧
      csl.cost = defaultCostModel.computeCost ast ∧
      getLoopRange l = some csl.range :=
  (compileSubLoopEntry_inv l n p csl p2 h).2.2 hc

/-- Witness for C1's amended theorem at the concrete loop `loopX`. -/
theorem C1_amended_witness : (subLoopIsVectorLoop loopX patX).verdict = true :=
  (C1_amended_compiled_entries loopX 0 patX cslX ⟨some 99, some 1⟩ rfl rfl).1

/-! ### Claim C2 -/

/-- Claim C2, refuted at a concrete input: extracting `add(7, srem(1, 2))`
returns a partial tree — an Operator node whose right child is missing — rather
than propagating the child failure as a total failure (`.ok none`). -/
theorem C2_counterexample :
    extractComputation patC2 valC2 = ExtractRes.ok (some astC2) ∧
    wellFormedAST astC2 = false :=
  ⟨rfl, rfl⟩

/-- Claim C2 (amended): `extractComputation` does not propagate the failure of an
operand extraction — an allowed binary operator always yields an Operator node
carrying whatever the two recursions produced, an absent child included; and a
load whose address is not a GEP crashes (null `GetElementPtrInst*` dereference)
instead of returning the failure sentinel. -/
theorem C2_amended_extraction_behaviour :
    (∀ (p : AccessPattern) (i : Nat) (op : BinOp) (a b : Value)
        (l r : Option ExtractAST),
      allowedBinOp op = true →
      extractComputation p a = ExtractRes.ok l →
      extractComputation p b = ExtractRes.ok r →
      extractComputation p (Value.binop i op a b)
        = ExtractRes.ok (some (ExtractAST.opNode op l r))) ∧
    (∀ (p : AccessPattern) (i : Nat) (a : Value), isGepValue a = false →
      extractComputation p (Value.load i a) = ExtractRes.crash) := by
  constructor
  · intro p i op a b l r hop ha hb
    unfold extractComputation
    rw [hop]
    simp only [if_true, ha, hb]
  · intro p i a hga
    cases a with
    | gep _ _ _ => simp [isGepValue] at hga
    | const _ _ => rfl
    | binop _ _ _ _ => rfl
    | conv _ _ _ => rfl
    | load _ _ => rfl
    | store _ _ _ => rfl
    | phi _ _ => rfl
    | other _ => rfl

/-- Witness for C2's amended theorem at the concrete value `valC2`. -/
theorem C2_amended_witness :
    extractComputation patC2 valC2 = ExtractRes.ok (some astC2) :=
  C2_amended_extraction_behaviour.1 patC2 20 BinOp.add (Value.const 21 7) sremX
    (some ExtractAST.constant) none rfl rfl rfl

/-! ### Claim C3 -/

/-- Claim C3, refuted at a concrete input: `loopY` is accepted as a vector loop,
but its exit comparison's second operand is not a compile-time constant, so the
`cast<ConstantInt>` in `getLoopRange` fails — the process aborts (`none`) and
the abort propagates through `compileSubLoop`; no "no-range" indicator is ever
handed to a caller. -/
theorem C3_counterexample :
    (subLoopIsVectorLoop loopY patX).verdict = true ∧
    getLoopRange loopY = none ∧
    compileSubLoopEntry loopY 0 patX = none :=
  ⟨rfl, rfl, rfl⟩

/-- Claim C3 (amended): `getLoopRange` produces a range exactly when the first
phi's first incoming value and the first comparison's second operand are
compile-time integer constants; in every other case the constant cast is an
unrecoverable abort, which propagates through `compileSubLoop` (the pipeline
dies rather than degrading). -/
theorem C3_amended_range_abort :
    (∀ l : Loop, (getLoopRange l).isSome = true ↔
      ((∃ i s, (rangeScanFinal l).start = some (Value.const i s)) ∧
       (∃ j e, (rangeScanFinal l).stop = some (Value.const j e)))) ∧
    (∀ (l : Loop) (n : Nat) (p : AccessPattern),
      (subLoopIsVectorLoop l p).verdict = true → getLoopRange l = none →
      compileSubLoopEntry l n p = none) := by
  constructor
  · intro l
    unfold getLoopRange
    constructor
    · intro h
      rcases h1 : (rangeScanFinal l).start with _ | v1 <;> rw [h1] at h
      · simp at h
      · rcases h2 : (rangeScanFinal l).stop with _ | v2 <;> rw [h2] at h
        · cases v1 <;> simp at h
        · cases v1 <;> cases v2 <;> simp at h <;> exact ⟨⟨_, _, rfl⟩, ⟨_, _, rfl⟩⟩
    · rintro ⟨⟨i, s, h1⟩, ⟨j, e, h2⟩⟩
      rw [h1, h2]
      rfl
  · intro l n p hv hr
    obtain ⟨v, hsv⟩ := (subLoopIsVectorLoop_shape l p).2 hv
    unfold compileSubLoopEntry
    rcases hE : subLoopIsVectorLoop l p with ⟨vd, pt, svo⟩
    rw [hE] at hv hsv
    dsimp only at hv hsv
    subst hv
    subst hsv
    dsimp only
    rw [hr]

/-- Witness for C3's amended theorem at the concrete loop `loopY`. -/
theorem C3_amended_witness : compileSubLoopEntry loopY 0 patX = none :=
  C3_amended_range_abort.2 loopY 0 patX rfl rfl

/-! ### Claim C4 -/

/-- Claim C4 is right about the intent but the code is wrong: with the entry
point undeclared, each inserter prints its diagnostic and then — the early
`return` is missing — dereferences the null `Function*`, crashing the process
(`none`) instead of skipping the insertion.  With the declarations present, the
call is appended at the header as specified. -/
theorem C4_missing_declaration_crash :
    insertSubLoopPIMCall moduleNone 0 none = none ∧
    insertPIMInitCall moduleNone 0 0 4 = none ∧
    insertSubLoopPIMCall moduleBoth 3 (some 1) =
      some ⟨["pim_runindex", "pim_initsubloop"], [PimCall.runindex 3 (some 1)]⟩ ∧
    insertPIMInitCall moduleBoth 0 0 4 =
      some ⟨["pim_runindex", "pim_initsubloop"], [PimCall.initsubloop 0 0 4]⟩ := by
  refine ⟨?_, ?_, ?_, ?_⟩ <;> rfl

/-! ### Claim C5 -/

/-- Claim C5: loop erasure is all-or-nothing.  With no exit block nothing is
edited; with an exit block every branch of the header has both successors
redirected to it, the loop's other blocks are untouched, no instruction is
deleted (header length preserved), and every non-branch header instruction
survives unchanged. -/
theorem C5_erase_all_or_nothing (l : LoopCFG) :
    (l.exitBlock = none → eraseSubLoop l = l) ∧
    (∀ e, l.exitBlock = some e →
      (eraseSubLoop l).body = l.body ∧
      (eraseSubLoop l).header.length = l.header.length ∧
      (∀ s0 s1, HInstr.br s0 s1 ∈ (eraseSubLoop l).header → s0 = e ∧ s1 = e) ∧
      (∀ v, HInstr.plain v ∈ l.header → HInstr.plain v ∈ (eraseSubLoop l).header)) := by
  constructor
  · intro h
    unfold eraseSubLoop
    rw [h]
  · intro e he
    unfold eraseSubLoop
    rw [he]
    refine ⟨rfl, List.length_map .., ?_, ?_⟩
    · intro s0 s1 hmem
      rcases List.mem_map.mp hmem with ⟨a, _, hred⟩
      cases a with
      | br x y =>
          obtain ⟨h0, h1⟩ := HInstr.br.injEq .. ▸ hred
          exact ⟨h0.symm, h1.symm⟩
      | plain v => cases hred
    · intro v hv
      exact List.mem_map.mpr ⟨HInstr.plain v, hv, rfl⟩

/-- Witness for C5 at the concrete loop CFG `cfgW`. -/
theorem C5_witness :
    (eraseSubLoop cfgW).body = cfgW.body ∧
    (eraseSubLoop cfgW).header.length = cfgW.header.length :=
  ⟨((C5_erase_all_or_nothing cfgW).2 9 rfl).1,
   ((C5_erase_all_or_nothing cfgW).2 9 rfl).2.1⟩

/-! ### Claim C6 -/

/-- Claim C6, refuted at a concrete input: `outerC6` is a depth-1 loop whose
canonical-induction-variable oracle returns null, yet its sub-loop is still
checked — the visit completes and the single sub-loop check ran with a null
`row_index` (`first_idx = none`); no upstream rejection exists. -/
theorem C6_counterexample :
    outerC6.depth = 1 ∧ outerC6.canonicalIV = none ∧
    (runOnLoopSubPhase outerC6 regEmpty).1.isSome = true ∧
    (runOnLoopSubPhase outerC6 regEmpty).2
      = [(⟨none, none⟩ : AccessPattern)] :=
  ⟨rfl, rfl, rfl, rfl⟩

/-- Claim C6 (amended): `runOnLoop` performs no canonical-induction-variable
rejection for the outer loop: when the visit completes, every sub-loop was
checked (one check per sub-loop), and every check ran with `first_idx` equal to
whatever the oracle returned — null included. -/
theorem C6_amended_no_rejection (L : OuterLoop) (reg : Registry)
    (hd : L.depth = 1) :
    (∀ q ∈ (runOnLoopSubPhase L reg).2, q.first_idx = L.canonicalIV) ∧
    ((runOnLoopSubPhase L reg).1.isSome = true →
      (runOnLoopSubPhase L reg).2.length = L.subs.length) := by
  unfold runOnLoopSubPhase
  rcases Nat.eq_zero_or_pos L.subs.length with hz | hpos
  · rw [if_neg (by omega)]
    exact ⟨fun q hq => absurd hq (by simp), fun _ => by simp [hz]⟩
  · rw [if_pos ⟨hd, by omega⟩]
    constructor
    · intro q hq
      exact processSubLoops_trace_first_idx L.subs 0 ⟨L.canonicalIV, none⟩ reg q hq
    · intro hs
      dsimp only at hs ⊢
      rcases hh : (processSubLoops L.subs 0 ⟨L.canonicalIV, none⟩ reg).1 with _ | pr
      · rw [hh] at hs
        simp at hs
      · exact processSubLoops_trace_length L.subs 0 ⟨L.canonicalIV, none⟩ reg
          (by rw [hh]; rfl)

/-- Witness for C6's amended theorem at the concrete outer loop `outerC6`. -/
theorem C6_amended_witness :
    (runOnLoopSubPhase outerC6 regEmpty).2.length = outerC6.subs.length :=
  (C6_amended_no_rejection outerC6 regEmpty rfl).2 rfl

/-! ### Claim C7 -/

/-- Claim C7, refuted at a concrete input: the interchange-legality check
succeeds for `loopI`, yet `compileSubLoop` records the sub-loop with
`interchanged = false` and leaves `pattern.first_idx` unswapped —
`doLoopInterchange` is never invoked by the pipeline. -/
theorem C7_counterexample :
    isLoopInterchangeValid loopI loopI patI = true ∧
    compileSubLoopEntry loopI 0 patI
      = some (({} : CompiledSubLoop), ⟨some 5, some 10⟩) ∧
    (({} : CompiledSubLoop)).interchanged = false ∧
    (⟨some 5, some 10⟩ : AccessPattern).first_idx = patI.first_idx :=
  ⟨rfl, rfl, rfl, rfl⟩

/-- Claim C7 (amended): the interchange-legality verdict only selects a report
message.  No path of `compileSubLoop` swaps the pattern (`first_idx` is
preserved) or sets the record's `interchanged` flag; `doLoopInterchange` — which
would swap the two indices in place (an involution) — has no caller. -/
theorem C7_amended_no_interchange :
    (∀ (l : Loop) (n : Nat) (p : AccessPattern) (csl : CompiledSubLoop)
        (p2 : AccessPattern),
      compileSubLoopEntry l n p = some (csl, p2) →
      csl.interchanged = false ∧ p2.first_idx = p.first_idx) ∧
    (∀ q : AccessPattern, (doLoopInterchange (doLoopInterchange q).1).1 = q) := by
  constructor
  · intro l n p csl p2 h
    exact ⟨(compileSubLoopEntry_inv l n p csl p2 h).2.1,
      compileSubLoopEntry_first_idx l n p csl p2 h⟩
  · intro q
    cases q
    rfl

/-- Witness for C7's amended theorem at the concrete loop `loopI`. -/
theorem C7_amended_witness :
    (({} : CompiledSubLoop)).interchanged = false ∧
    (⟨some 5, some 10⟩ : AccessPattern).first_idx = patI.first_idx :=
  C7_amended_no_interchange.1 loopI 0 patI {} ⟨some 5, some 10⟩ rfl

/-! ### Claim C8 -/

/-- Claim C8, refuted at a concrete input: after a complete outer-loop visit
(scan, rewrite and init-call phases — the latter two never write the map), the
global registry still holds the entry written during the visit: it is neither
discarded nor reset when the visit's rewrite step completes. -/
theorem C8_counterexample :
    (visitRegistry outerC8 regEmpty).map (fun r => regGet r 0) = some cslX ∧
    cslX.compiled = true :=
  ⟨rfl, rfl⟩

/-- Claim C8 (amended): the registry is a never-cleared process-lifetime map, but
reads are nevertheless isolated per visit: a visit's scan gives every key it
will later read (0..n-1) a value independent of whatever earlier visits left in
the map, and the init-call insertion pass depends only on those keys — so no
value written by an earlier visit is ever observed. -/
theorem C8_amended_read_isolation :
    (∀ (subs : List Loop) (n : Nat) (p : AccessPattern) (reg1 reg2 : Registry),
      (processSubLoops subs n p reg1).2 = (processSubLoops subs n p reg2).2 ∧
      (processSubLoops subs n p reg1).1.isSome
        = (processSubLoops subs n p reg2).1.isSome ∧
      (∀ rr1 p1 rr2 p2,
        (processSubLoops subs n p reg1).1 = some (rr1, p1) →
        (processSubLoops subs n p reg2).1 = some (rr2, p2) →
        p1 = p2 ∧ ∀ k, n ≤ k → k < n + subs.length → regGet rr1 k = regGet rr2 k)) ∧
    (∀ (m : ModuleIR) (reg1 reg2 : Registry) (maxN : Nat),
      (∀ i, i < maxN → regGet reg1 i = regGet reg2 i) →
      insertLoopPIMCalls m reg1 maxN = insertLoopPIMCalls m reg2 maxN) := by
  constructor
  · exact processSubLoops_indep
  · intro m reg1 reg2 maxN h
    unfold insertLoopPIMCalls
    exact insertLoopPIMCallsGo_congr reg1 reg2 (List.range maxN) m
      (fun i hi => h i (List.mem_range.mp hi))

/-- Witness for C8's amended theorem: two registries that differ only at a key
the init-call pass never reads produce the same insertions. -/
theorem C8_amended_witness :
    insertLoopPIMCalls moduleBoth (regSet regEmpty 5 cslX) 1
      = insertLoopPIMCalls moduleBoth regEmpty 1 :=
  C8_amended_read_isolation.2 moduleBoth (regSet regEmpty 5 cslX) regEmpty 1
    (by
      intro i hi
      have h0 : i = 0 := by omega
      subst h0
      rfl)

/-! ### Claim C9 -/

/-- Claim C9: independence analysis is conservative on stores — any loop
containing a store instruction whose target address is not a
`getelementptr` computation is classified dependent (`false`). -/
theorem C9_independence_conservative (l : Loop) (p : AccessPattern)
    (b : List Value) (i : Nat) (sv addr : Value)
    (hb : b ∈ l.blocks) (hs : Value.store i sv addr ∈ b)
    (ha : isGepValue addr = false) :
    isLoopIterationIndependent l p = false := by
  unfold isLoopIterationIndependent
  exact indepScanBlocks_bad_block p.first_idx l.blocks l.canonicalIV b hb
    (fun iv => indepScanInstrs_raw_store iv p.first_idx b i sv addr hs ha)

/-- Witness for C9 at the concrete loop `loopRaw` (a store through a raw
pointer). -/
theorem C9_witness :
    isLoopIterationIndependent loopRaw ⟨none, none⟩ = false :=
  C9_independence_conservative loopRaw ⟨none, none⟩
    [Value.store 2 (Value.const 3 0) (Value.other 4)] 2 (Value.const 3 0)
    (Value.other 4) (List.mem_singleton.mpr rfl) (List.mem_singleton.mpr rfl) rfl

/-! ### Claim C10 -/

/-- Claim C10: on every well-formed expression tree `computeCost` equals the
bottom-up fold with the claimed weights (leaves 0; an Operator node sums both
children plus its weight, an unknown operator adding 0); in particular the
add-of-two-loads tree costs 1187 and the compare-against-constant tree costs
173. -/
theorem C10_cost_fold :
    (∀ t : ExtractAST, wellFormedAST t = true →
      defaultCostModel.computeCost (some t) = costSpecFold t) ∧
    defaultCostModel.computeCost (some astAddLoads) = 1187 ∧
    defaultCostModel.computeCost (some astCmpConst) = 173 :=
  ⟨fun t h => computeCostAST_eq_spec t h, rfl, rfl⟩

/-- Witness for C10 at the concrete tree `astAddLoads`. -/
theorem C10_witness :
    wellFormedAST astAddLoads = true ∧
    defaultCostModel.computeCost (some astAddLoads) = costSpecFold astAddLoads :=
  ⟨rfl, C10_cost_fold.1 astAddLoads rfl⟩

end AutoPIM
